import Mathlib

/-!
# uwotmit: seed handling of the random number factories (`src/rng.h`)

A shallow embedding of `rng.h`.

* `uint32_t`, `uint64_t` and `std::size_t` values are natural numbers; every
  place where the C++ arithmetic can wrap carries an explicit `% 2 ^ 32` or
  `% 2 ^ 64` (`std::size_t` is taken to be 64 bits wide).
* `R::runif` is the host's random source.  Its floating point scaling is not
  part of the embedding: the source is a stream of already scaled draws and a
  cursor, and `random64` / `random32` hand out the word under the cursor and
  advance it.
* Member functions are state transformers over the object and the entropy
  source, so that what a call leaves untouched is visible in its result.
* Unchecked indexing (`seeds[k]`, `%` by zero) is undefined behaviour in C++;
  the embedding is total and answers `none` there.
* `uwot::tau_prng` (header `uwot/tauprng.h`) and `sitmo::prng_engine` (header
  `sitmo.h`) are not part of `rng.h`; their constructors and the engine's
  output function are parameters.
-/

namespace uwot

/-! ## Seed combiner -/

/-- The function `convert_seed(const uint32_t* seeds, std::size_t n)`.  The array behind the
pointer is a list of 32-bit words; reading past its end gives `none`. -/
def convert_seed (seeds : List Nat) (n : Nat) : Option Nat :=
  if n ≥ 2 then
    match seeds[1]?, seeds[0]? with
    | some s1, some s0 => some (((s1 <<< 32) % 2 ^ 64) ||| s0)
    | _, _ => none
  else if n = 1 then
    match seeds[0]? with
    | some s0 => some s0
    | none => none
  else
    some 0

/-! ## Entropy source -/

/-- The host random source as seen through `random64` and `random32`: `u64 k` and `u32 k` are the
`k`-th uniform draw scaled to 64 and to 32 bits, `pos` counts the draws consumed so far. -/
structure Entropy where
  u64 : Nat → Nat
  u32 : Nat → Nat
  pos : Nat

/-- The function `random64()`: one draw, delivered as a `uint64_t`. -/
def random64 (e : Entropy) : Nat × Entropy :=
  (e.u64 e.pos % 2 ^ 64, { e with pos := e.pos + 1 })

/-- The function `random32()`: one draw, delivered as a `uint32_t`. -/
def random32 (e : Entropy) : Nat × Entropy :=
  (e.u32 e.pos % 2 ^ 32, { e with pos := e.pos + 1 })

/-- The loop `for (i = 0; i < seeds.size(); i++) seeds[i] = draw();` of both `reseed` bodies,
started at index `i`.  The index never exceeds `seeds.size()`, so `i++` cannot wrap. -/
def reseed_loop (draw : Entropy → Nat × Entropy) (i : Nat) (seeds : List Nat) (e : Entropy) :
    List Nat × Entropy :=
  if i < seeds.length then
    let r := draw e
    reseed_loop draw (i + 1) (seeds.set i r.1) r.2
  else
    (seeds, e)
termination_by seeds.length - i
decreasing_by
  simp only [List.length_set]
  omega

/-! ## Batch tau factory -/

/-- The struct `batch_tau_factory`: stream count and seed pool (`std::vector<uint64_t>`). -/
structure batch_tau_factory where
  n_rngs : Nat
  seeds : List Nat

namespace batch_tau_factory

/-- The constant `seeds_per_rng` of `batch_tau_factory`. -/
def seeds_per_rng : Nat := 3

/-- The constructor `batch_tau_factory(std::size_t n_rngs)`: a zero-filled vector of
`seeds_per_rng * n_rngs` words, the product taken in `std::size_t`. -/
def construct (n_rngs : Nat) : batch_tau_factory :=
  { n_rngs := n_rngs, seeds := List.replicate ((seeds_per_rng * n_rngs) % 2 ^ 64) 0 }

/-- The default constructor `batch_tau_factory()`. -/
def construct_default : batch_tau_factory :=
  { n_rngs := 1, seeds := List.replicate ((seeds_per_rng * 1) % 2 ^ 64) 0 }

/-- The member `reseed()`. -/
def reseed (f : batch_tau_factory) (e : Entropy) : batch_tau_factory × Entropy :=
  let r := reseed_loop random64 0 f.seeds e
  ({ f with seeds := r.1 }, r.2)

/-- The pool positions `idx`, `idx + 1`, `idx + 2` that `create(n)` indexes, in the order of the
constructor arguments. -/
def create_reads (n : Nat) : List Nat :=
  let idx := (n * seeds_per_rng) % 2 ^ 64
  [idx, (idx + 1) % 2 ^ 64, (idx + 2) % 2 ^ 64]

/-- The member `create(std::size_t n)`.  `mk` is the constructor of `uwot::tau_prng`.  The result
carries the factory and the entropy source as the call leaves them. -/
def create {G : Type} (mk : Nat → Nat → Nat → G) (f : batch_tau_factory) (n : Nat)
    (e : Entropy) : Option (G × batch_tau_factory × Entropy) :=
  let idx := (n * seeds_per_rng) % 2 ^ 64
  match f.seeds[idx]?, f.seeds[(idx + 1) % 2 ^ 64]?, f.seeds[(idx + 2) % 2 ^ 64]? with
  | some s0, some s1, some s2 => some (mk s0 s1 s2, f, e)
  | _, _, _ => none

end batch_tau_factory

/-! ## pcg generator -/

/-- The parts of `sitmo::prng_engine` that `rng.h` uses: seeding from a `uint32_t` and
`operator()`, which returns the next raw output and the advanced engine. -/
structure Engine (σ : Type) where
  seed : Nat → σ
  next : σ → Nat × σ

/-- The struct `pcg_prng`: it holds the engine `gen`. -/
structure pcg_prng (σ : Type) where
  gen : σ

namespace pcg_prng

/-- The constructor `pcg_prng(uint64_t seed) : gen(static_cast<uint32_t>(seed))`. -/
def construct {σ : Type} (E : Engine σ) (seed : Nat) : pcg_prng σ :=
  { gen := E.seed (seed % 2 ^ 32) }

/-- The call operator `operator()(std::size_t n, std::size_t, std::size_t)`: `gen() % n`, with
`gen()` a `uint32_t`.  A zero modulus gives `none`. -/
def draw {σ : Type} (E : Engine σ) (g : pcg_prng σ) (n : Nat) (_ctx_a _ctx_b : Nat) :
    Option (Nat × pcg_prng σ) :=
  let r := E.next g.gen
  if n = 0 then none else some ((r.1 % 2 ^ 32) % n, { gen := r.2 })

end pcg_prng

/-! ## Batch pcg factory -/

/-- The struct `batch_pcg_factory`: stream count and seed pool (`std::vector<uint32_t>`). -/
structure batch_pcg_factory where
  n_rngs : Nat
  seeds : List Nat

namespace batch_pcg_factory

/-- The constant `seeds_per_rng` of `batch_pcg_factory`. -/
def seeds_per_rng : Nat := 2

/-- The constructor `batch_pcg_factory(std::size_t n_rngs)`. -/
def construct (n_rngs : Nat) : batch_pcg_factory :=
  { n_rngs := n_rngs, seeds := List.replicate ((seeds_per_rng * n_rngs) % 2 ^ 64) 0 }

/-- The default constructor `batch_pcg_factory()`. -/
def construct_default : batch_pcg_factory :=
  { n_rngs := 1, seeds := List.replicate ((seeds_per_rng * 1) % 2 ^ 64) 0 }

/-- The member `reseed()`. -/
def reseed (f : batch_pcg_factory) (e : Entropy) : batch_pcg_factory × Entropy :=
  let r := reseed_loop random32 0 f.seeds e
  ({ f with seeds := r.1 }, r.2)

/-- The pool positions `n * seeds_per_rng` and `n * seeds_per_rng + 1` that `create(n)` indexes,
in the order of the array `pcg_seeds`. -/
def create_reads (n : Nat) : List Nat :=
  [(n * seeds_per_rng) % 2 ^ 64, ((n * seeds_per_rng) % 2 ^ 64 + 1) % 2 ^ 64]

/-- The member `create(std::size_t n)`: the two pool words go through `convert_seed` into the
`pcg_prng` constructor.  The result carries the factory and the entropy source as the call
leaves them. -/
def create {σ : Type} (E : Engine σ) (f : batch_pcg_factory) (n : Nat) (e : Entropy) :
    Option (pcg_prng σ × batch_pcg_factory × Entropy) :=
  match f.seeds[(n * seeds_per_rng) % 2 ^ 64]?,
      f.seeds[((n * seeds_per_rng) % 2 ^ 64 + 1) % 2 ^ 64]? with
  | some s0, some s1 =>
    match convert_seed [s0, s1] 2 with
    | some s => some (pcg_prng.construct E s, f, e)
    | none => none
  | _, _ => none

end batch_pcg_factory

/-! ## Legacy factories -/

/-- The struct `tau_factory`: the two long-lived seeds. -/
structure tau_factory where
  seed1 : Nat
  seed2 : Nat

namespace tau_factory

/-- The constructor `tau_factory(std::size_t)`: the argument is unnamed and unused; both seeds
are initialised to 0 and then assigned from `random64()`, `seed1` first. -/
def construct (_n : Nat) (e : Entropy) : tau_factory × Entropy :=
  let f0 : tau_factory := { seed1 := 0, seed2 := 0 }
  let r1 := random64 e
  let f1 : tau_factory := { f0 with seed1 := r1.1 }
  let r2 := random64 r1.2
  ({ f1 with seed2 := r2.1 }, r2.2)

/-- The member `reseed()`: `seed1 = random64(); seed2 = random64();`. -/
def reseed (f : tau_factory) (e : Entropy) : tau_factory × Entropy :=
  let r1 := random64 e
  let f1 : tau_factory := { f with seed1 := r1.1 }
  let r2 := random64 r1.2
  ({ f1 with seed2 := r2.1 }, r2.2)

/-- The member `create(std::size_t seed)`: `tau_prng(seed1, seed2, uint64_t{seed})`.  The brace
initialisation admits no narrowing, so the third argument is the value of `seed`. -/
def create {G : Type} (mk : Nat → Nat → Nat → G) (f : tau_factory) (seed : Nat) (e : Entropy) :
    G × tau_factory × Entropy :=
  (mk f.seed1 f.seed2 seed, f, e)

end tau_factory

/-- The struct `pcg_factory`: the single 32-bit seed. -/
structure pcg_factory where
  seed1 : Nat

namespace pcg_factory

/-- The constructor `pcg_factory(std::size_t) : seed1(random32())`; the argument is unused. -/
def construct (_n : Nat) (e : Entropy) : pcg_factory × Entropy :=
  let r := random32 e
  ({ seed1 := r.1 }, r.2)

/-- The member `reseed()`: `seed1 = random32();`. -/
def reseed (f : pcg_factory) (e : Entropy) : pcg_factory × Entropy :=
  let r := random32 e
  ({ f with seed1 := r.1 }, r.2)

/-- The member `create(std::size_t seed)`: the array `{seed1, static_cast<uint32_t>(seed)}` goes
through `convert_seed` into the `pcg_prng` constructor. -/
def create {σ : Type} (E : Engine σ) (f : pcg_factory) (seed : Nat) (e : Entropy) :
    Option (pcg_prng σ × pcg_factory × Entropy) :=
  match convert_seed [f.seed1, seed % 2 ^ 32] 2 with
  | some s => some (pcg_prng.construct E s, f, e)
  | none => none

end pcg_factory

/-- The struct `deterministic_factory`: it has no data members. -/
structure deterministic_factory where

namespace deterministic_factory

/-- The constructor `deterministic_factory(std::size_t)`; the argument is unused. -/
def construct (_n : Nat) : deterministic_factory := {}

/-- The member `reseed()`, whose body is empty. -/
def reseed (f : deterministic_factory) (e : Entropy) : deterministic_factory × Entropy :=
  (f, e)

/-- The member `create(std::size_t seed)`: `return uwot::deterministic_ng();`.  `ng` is the
default-constructed `uwot::deterministic_ng`. -/
def create {G : Type} (ng : G) (f : deterministic_factory) (_seed : Nat) (e : Entropy) :
    G × deterministic_factory × Entropy :=
  (ng, f, e)

end deterministic_factory

/-! ## Call sequences -/

/-- A tau batch factory after `reseed()` calls in sequence, one per listed state of the entropy
source. -/
def batch_tau_factory.reseed_many (f : batch_tau_factory) (es : List Entropy) :
    batch_tau_factory :=
  es.foldl (fun g e => (g.reseed e).1) f

/-- A pcg batch factory after `reseed()` calls in sequence, one per listed state of the entropy
source. -/
def batch_pcg_factory.reseed_many (f : batch_pcg_factory) (es : List Entropy) :
    batch_pcg_factory :=
  es.foldl (fun g e => (g.reseed e).1) f

/-! ## Fixtures -/

/-- The stub entropy source of the test scenario: it yields `1, 2, 3, 4, 5, 6, …` in order. -/
def counting_entropy : Entropy :=
  { u64 := fun k => k + 1, u32 := fun k => k + 1, pos := 0 }

/-- A generator constructor that records its three seed words in order. -/
def seed_triple (s0 s1 s2 : Nat) : Nat × Nat × Nat := (s0, s1, s2)

/-- An engine whose state is the seed it was given and a count of outputs; its raw output is the
sum of both. -/
def echo_engine : Engine (Nat × Nat) :=
  { seed := fun s => (s, 0), next := fun st => (st.1 + st.2, (st.1, st.2 + 1)) }

/-- A second stub source: its first six draws differ from those of `counting_entropy`, the
later ones agree. -/
def skewed_entropy : Entropy :=
  { u64 := fun k => if k < 6 then 100 + k else k + 1,
    u32 := fun k => if k < 6 then 100 + k else k + 1,
    pos := 0 }

/-- A tau factory for two streams holding an arbitrary earlier pool. -/
def used_tau_factory : batch_tau_factory :=
  { n_rngs := 2, seeds := [11, 12, 13, 14, 15, 16] }

/-- A pcg factory for three streams holding an arbitrary earlier pool. -/
def used_pcg_factory : batch_pcg_factory :=
  { n_rngs := 3, seeds := [21, 22, 23, 24, 25, 26] }

/-! ## Auxiliary facts -/

/-- Placing a 32-bit word above another one: shift and bitwise or amount to `b * 2 ^ 32 + a`. -/
theorem shift_or_eq (a b : Nat) (ha : a < 2 ^ 32) (hb : b < 2 ^ 32) :
    (((b <<< 32) % 2 ^ 64) ||| a) = b * 2 ^ 32 + a := by
  have hlt : b <<< 32 < 2 ^ 64 := by
    rw [Nat.shiftLeft_eq]
    omega
  rw [Nat.mod_eq_of_lt hlt, Nat.shiftLeft_eq, Nat.mul_comm b (2 ^ 32)]
  exact (Nat.mul_add_lt_is_or ha b).symm

/-- The combiner on an array of exactly two words. -/
theorem convert_seed_pair (a b : Nat) :
    convert_seed [a, b] 2 = some (((b <<< 32) % 2 ^ 64) ||| a) := by
  simp [convert_seed]

/-- Unfolding of `reseed_loop` inside the pool. -/
theorem reseed_loop_lt (draw : Entropy → Nat × Entropy) (i : Nat) (seeds : List Nat)
    (e : Entropy) (h : i < seeds.length) :
    reseed_loop draw i seeds e
      = reseed_loop draw (i + 1) (seeds.set i (draw e).1) (draw e).2 := by
  rw [reseed_loop]
  simp [h]

/-- Unfolding of `reseed_loop` at the end of the pool. -/
theorem reseed_loop_ge (draw : Entropy → Nat × Entropy) (i : Nat) (seeds : List Nat)
    (e : Entropy) (h : seeds.length ≤ i) :
    reseed_loop draw i seeds e = (seeds, e) := by
  rw [reseed_loop]
  simp [Nat.not_lt.mpr h]

/-- Overwriting position `i` and keeping the first `i + 1` words. -/
theorem take_succ_set (seeds : List Nat) (i v : Nat) (h : i < seeds.length) :
    List.take (i + 1) (seeds.set i v) = List.take i seeds ++ [v] := by
  apply List.ext_getElem?
  intro k
  rw [List.getElem?_take, List.getElem?_append, List.getElem?_set]
  simp only [List.length_take, Nat.min_eq_left (Nat.le_of_lt h), List.getElem?_take]
  by_cases h1 : k < i
  · have h2 : k < i + 1 := by omega
    have h3 : ¬ i = k := by omega
    simp [h1, h2, h3]
  · by_cases h4 : k = i
    · subst h4
      simp [h]
    · have h5 : ¬ k < i + 1 := by omega
      have h6 : k - i ≠ 0 := by omega
      simp [h1, h5, h6]
      omega

/-- What the refill loop computes from index `i` on: the words below `i` stay, every later
position `i + k` receives the `k`-th word drawn, and one draw is consumed per position. -/
theorem reseed_loop_spec (draw : Entropy → Nat × Entropy)
    (hdraw : ∀ e, (draw e).2 = { e with pos := e.pos + 1 }) :
    ∀ (d i : Nat) (seeds : List Nat) (e : Entropy), seeds.length - i = d → i ≤ seeds.length →
      reseed_loop draw i seeds e
        = (seeds.take i ++ (List.range d).map (fun k => (draw { e with pos := e.pos + k }).1),
            { e with pos := e.pos + d }) := by
  intro d
  induction d with
  | zero =>
    intro i seeds e hd hi
    have hge : seeds.length ≤ i := by omega
    rw [reseed_loop_ge draw i seeds e hge]
    simp [List.take_of_length_le hge]
  | succ d ih =>
    intro i seeds e hd hi
    have hlt : i < seeds.length := by omega
    rw [reseed_loop_lt draw i seeds e hlt]
    have hlen : (seeds.set i (draw e).1).length = seeds.length := List.length_set _ _ _
    rw [ih (i + 1) (seeds.set i (draw e).1) (draw e).2 (by omega) (by omega)]
    rw [hdraw e]
    refine Prod.ext ?_ ?_
    · simp only
      rw [List.range_succ_eq_map, List.map_cons, List.map_map]
      rw [take_succ_set seeds i (draw e).1 hlt, List.append_assoc]
      congr 1
      simp only [List.singleton_append, Nat.add_zero]
      congr 1
      apply List.map_congr_left
      intro k _
      simp only [Function.comp, Nat.add_assoc, Nat.add_comm 1 k, Nat.succ_eq_add_one]
    · simp only [Nat.add_assoc, Nat.add_comm 1 d]

/-- The refill loop run over the whole pool: the new pool is the list of the words drawn. -/
theorem reseed_loop_zero (draw : Entropy → Nat × Entropy)
    (hdraw : ∀ e, (draw e).2 = { e with pos := e.pos + 1 }) (seeds : List Nat) (e : Entropy) :
    reseed_loop draw 0 seeds e
      = ((List.range seeds.length).map (fun k => (draw { e with pos := e.pos + k }).1),
          { e with pos := e.pos + seeds.length }) := by
  rw [reseed_loop_spec draw hdraw seeds.length 0 seeds e (by omega) (by omega)]
  simp

/-- Pool of the tau factory after `reseed()`. -/
theorem tau_reseed_seeds (f : batch_tau_factory) (e : Entropy) :
    (f.reseed e).1.seeds = (List.range f.seeds.length).map (fun k => e.u64 (e.pos + k) % 2 ^ 64) := by
  simp only [batch_tau_factory.reseed]
  rw [reseed_loop_zero random64 (fun _ => rfl)]
  simp [random64]

/-- Entropy source after `reseed()` of the tau factory. -/
theorem tau_reseed_entropy (f : batch_tau_factory) (e : Entropy) :
    (f.reseed e).2 = { e with pos := e.pos + f.seeds.length } := by
  simp only [batch_tau_factory.reseed]
  rw [reseed_loop_zero random64 (fun _ => rfl)]

/-- Pool of the pcg factory after `reseed()`. -/
theorem pcg_reseed_seeds (f : batch_pcg_factory) (e : Entropy) :
    (f.reseed e).1.seeds = (List.range f.seeds.length).map (fun k => e.u32 (e.pos + k) % 2 ^ 32) := by
  simp only [batch_pcg_factory.reseed]
  rw [reseed_loop_zero random32 (fun _ => rfl)]
  simp [random32]

/-- Entropy source after `reseed()` of the pcg factory. -/
theorem pcg_reseed_entropy (f : batch_pcg_factory) (e : Entropy) :
    (f.reseed e).2 = { e with pos := e.pos + f.seeds.length } := by
  simp only [batch_pcg_factory.reseed]
  rw [reseed_loop_zero random32 (fun _ => rfl)]

/-- The stream count survives `reseed()` of the tau factory. -/
theorem tau_reseed_n_rngs (f : batch_tau_factory) (e : Entropy) :
    (f.reseed e).1.n_rngs = f.n_rngs := rfl

/-- The stream count survives `reseed()` of the pcg factory. -/
theorem pcg_reseed_n_rngs (f : batch_pcg_factory) (e : Entropy) :
    (f.reseed e).1.n_rngs = f.n_rngs := rfl

/-- The pool length survives `reseed()` of the tau factory. -/
theorem tau_reseed_length (f : batch_tau_factory) (e : Entropy) :
    (f.reseed e).1.seeds.length = f.seeds.length := by
  rw [tau_reseed_seeds]
  simp

/-- The pool length survives `reseed()` of the pcg factory. -/
theorem pcg_reseed_length (f : batch_pcg_factory) (e : Entropy) :
    (f.reseed e).1.seeds.length = f.seeds.length := by
  rw [pcg_reseed_seeds]
  simp

/-- On a tau factory whose pool holds three words per stream, `create` of an in-range index
reads the three consecutive words of that stream and leaves factory and entropy alone. -/
theorem tau_create_of_pool (G : Type) (mk : Nat → Nat → Nat → G) (f : batch_tau_factory)
    (i : Nat) (e : Entropy)
    (hlen : f.seeds.length = batch_tau_factory.seeds_per_rng * f.n_rngs)
    (hsize : f.seeds.length < 2 ^ 64) (hi : i < f.n_rngs) :
    ∃ a b c, f.seeds[3 * i]? = some a ∧ f.seeds[3 * i + 1]? = some b ∧
      f.seeds[3 * i + 2]? = some c ∧
      batch_tau_factory.create mk f i e = some (mk a b c, f, e) := by
  simp only [batch_tau_factory.seeds_per_rng] at hlen
  have h0 : 3 * i < f.seeds.length := by omega
  have h1 : 3 * i + 1 < f.seeds.length := by omega
  have h2 : 3 * i + 2 < f.seeds.length := by omega
  have m0 : (i * 3) % 2 ^ 64 = 3 * i := by omega
  have m1 : (3 * i + 1) % 2 ^ 64 = 3 * i + 1 := by omega
  have m2 : (3 * i + 2) % 2 ^ 64 = 3 * i + 2 := by omega
  refine ⟨f.seeds[3 * i], f.seeds[3 * i + 1], f.seeds[3 * i + 2],
    List.getElem?_eq_getElem h0, List.getElem?_eq_getElem h1, List.getElem?_eq_getElem h2, ?_⟩
  simp only [batch_tau_factory.create, batch_tau_factory.seeds_per_rng, m0, m1, m2,
    List.getElem?_eq_getElem h0, List.getElem?_eq_getElem h1, List.getElem?_eq_getElem h2]

/-- The batch tau factory of the test scenario after one `reseed()` from the counting source. -/
theorem tau_two_streams_reseeded :
    ((batch_tau_factory.construct 2).reseed counting_entropy).1
      = { n_rngs := 2, seeds := [1, 2, 3, 4, 5, 6] } := by
  have hs := tau_reseed_seeds (batch_tau_factory.construct 2) counting_entropy
  have hn := tau_reseed_n_rngs (batch_tau_factory.construct 2) counting_entropy
  have hl : (batch_tau_factory.construct 2).seeds.length = 6 := by
    simp [batch_tau_factory.construct, batch_tau_factory.seeds_per_rng]
  rw [hl] at hs
  have hs2 : ((batch_tau_factory.construct 2).reseed counting_entropy).1.seeds
      = [1, 2, 3, 4, 5, 6] := by
    rw [hs]
    simp [counting_entropy, List.range_succ]
  cases hf : ((batch_tau_factory.construct 2).reseed counting_entropy).1 with
  | mk n sd =>
    rw [hf] at hs2 hn
    simp only at hs2 hn
    rw [hs2, hn]
    rfl

/-- On a pcg factory whose pool holds two words per stream, `create` of an in-range index reads
the two consecutive words of that stream, combines them and leaves factory and entropy alone. -/
theorem pcg_create_of_pool (σ : Type) (E : Engine σ) (f : batch_pcg_factory) (i : Nat)
    (e : Entropy) (hlen : f.seeds.length = batch_pcg_factory.seeds_per_rng * f.n_rngs)
    (hsize : f.seeds.length < 2 ^ 64) (hi : i < f.n_rngs) :
    ∃ a b s, f.seeds[2 * i]? = some a ∧ f.seeds[2 * i + 1]? = some b ∧
      convert_seed [a, b] 2 = some s ∧
      batch_pcg_factory.create E f i e = some (pcg_prng.construct E s, f, e) := by
  simp only [batch_pcg_factory.seeds_per_rng] at hlen
  have h0 : 2 * i < f.seeds.length := by omega
  have h1 : 2 * i + 1 < f.seeds.length := by omega
  have m0 : (i * 2) % 2 ^ 64 = 2 * i := by omega
  have m1 : (2 * i + 1) % 2 ^ 64 = 2 * i + 1 := by omega
  have hc : convert_seed [f.seeds[2 * i], f.seeds[2 * i + 1]] 2
      = some (((f.seeds[2 * i + 1] <<< 32) % 2 ^ 64) ||| f.seeds[2 * i]) := by
    simp [convert_seed]
  refine ⟨f.seeds[2 * i], f.seeds[2 * i + 1], _,
    List.getElem?_eq_getElem h0, List.getElem?_eq_getElem h1, hc, ?_⟩
  simp only [batch_pcg_factory.create, batch_pcg_factory.seeds_per_rng, m0, m1,
    List.getElem?_eq_getElem h0, List.getElem?_eq_getElem h1, hc]

/-- The positions indexed by `create(i)` of the tau factory, when `3 * i + 2` fits a `size_t`. -/
theorem tau_create_reads_eq (i : Nat) (h : 3 * i + 2 < 2 ^ 64) :
    batch_tau_factory.create_reads i = [3 * i, 3 * i + 1, 3 * i + 2] := by
  have m0 : (i * 3) % 2 ^ 64 = 3 * i := by omega
  have m1 : (3 * i + 1) % 2 ^ 64 = 3 * i + 1 := by omega
  have m2 : (3 * i + 2) % 2 ^ 64 = 3 * i + 2 := by omega
  simp only [batch_tau_factory.create_reads, batch_tau_factory.seeds_per_rng, m0, m1, m2]

/-- The positions indexed by `create(i)` of the pcg factory, when `2 * i + 1` fits a `size_t`. -/
theorem pcg_create_reads_eq (i : Nat) (h : 2 * i + 1 < 2 ^ 64) :
    batch_pcg_factory.create_reads i = [2 * i, 2 * i + 1] := by
  have m0 : (i * 2) % 2 ^ 64 = 2 * i := by omega
  have m1 : (2 * i + 1) % 2 ^ 64 = 2 * i + 1 := by omega
  simp only [batch_pcg_factory.create_reads, batch_pcg_factory.seeds_per_rng, m0, m1]

/-- Two tau factories of the same shape hold the same pool after `reseed()` when the words
drawn agree, whatever their pools held before. -/
theorem tau_reseed_congr (f g : batch_tau_factory) (e e1 : Entropy)
    (hn : f.n_rngs = g.n_rngs) (hl : f.seeds.length = g.seeds.length)
    (hw : ∀ k, k < f.seeds.length → e.u64 (e.pos + k) % 2 ^ 64 = e1.u64 (e1.pos + k) % 2 ^ 64) :
    (f.reseed e).1 = (g.reseed e1).1 := by
  have hs : (f.reseed e).1.seeds = (g.reseed e1).1.seeds := by
    rw [tau_reseed_seeds, tau_reseed_seeds, ← hl]
    apply List.map_congr_left
    intro k hk
    exact hw k (List.mem_range.mp hk)
  have hc : (f.reseed e).1.n_rngs = (g.reseed e1).1.n_rngs := by
    rw [tau_reseed_n_rngs, tau_reseed_n_rngs, hn]
  cases hf : (f.reseed e).1 with
  | mk n sd =>
    cases hg : (g.reseed e1).1 with
    | mk n1 sd1 =>
      rw [hf, hg] at hs hc
      simp only at hs hc
      rw [hs, hc]

/-- Two pcg factories of the same shape hold the same pool after `reseed()` when the words
drawn agree, whatever their pools held before. -/
theorem pcg_reseed_congr (f g : batch_pcg_factory) (e e1 : Entropy)
    (hn : f.n_rngs = g.n_rngs) (hl : f.seeds.length = g.seeds.length)
    (hw : ∀ k, k < f.seeds.length → e.u32 (e.pos + k) % 2 ^ 32 = e1.u32 (e1.pos + k) % 2 ^ 32) :
    (f.reseed e).1 = (g.reseed e1).1 := by
  have hs : (f.reseed e).1.seeds = (g.reseed e1).1.seeds := by
    rw [pcg_reseed_seeds, pcg_reseed_seeds, ← hl]
    apply List.map_congr_left
    intro k hk
    exact hw k (List.mem_range.mp hk)
  have hc : (f.reseed e).1.n_rngs = (g.reseed e1).1.n_rngs := by
    rw [pcg_reseed_n_rngs, pcg_reseed_n_rngs, hn]
  cases hf : (f.reseed e).1 with
  | mk n sd =>
    cases hg : (g.reseed e1).1 with
    | mk n1 sd1 =>
      rw [hf, hg] at hs hc
      simp only at hs hc
      rw [hs, hc]

/-- The low half of a combined seed is the low half of its first word, whatever the second
word is. -/
theorem combine_low (x a : Nat) : (((x <<< 32) % 2 ^ 64) ||| a) % 2 ^ 32 = a % 2 ^ 32 := by
  apply Nat.eq_of_testBit_eq
  intro j
  simp only [Nat.testBit_mod_two_pow, Nat.testBit_or, Nat.testBit_shiftLeft]
  by_cases hj : j < 32
  · have h1 : ¬ j ≥ 32 := by omega
    simp [hj, h1]
  · simp [hj]

/-- What the legacy pcg factory builds: the engine is seeded with the low half of `seed1`. -/
theorem pcg_factory_create_eq (σ : Type) (E : Engine σ) (f : pcg_factory) (seed : Nat)
    (e : Entropy) :
    pcg_factory.create E f seed e = some ({ gen := E.seed (f.seed1 % 2 ^ 32) }, f, e) := by
  simp only [pcg_factory.create, convert_seed_pair, pcg_prng.construct, combine_low]

/-- Stream count and pool length of the tau factory survive any sequence of `reseed()` calls. -/
theorem tau_reseed_many_shape (es : List Entropy) :
    ∀ f : batch_tau_factory, (f.reseed_many es).n_rngs = f.n_rngs ∧
      (f.reseed_many es).seeds.length = f.seeds.length := by
  induction es with
  | nil =>
    intro f
    exact ⟨rfl, rfl⟩
  | cons e es ih =>
    intro f
    have h := ih (f.reseed e).1
    simp only [batch_tau_factory.reseed_many, List.foldl_cons] at h ⊢
    rw [h.1, h.2, tau_reseed_n_rngs, tau_reseed_length]
    exact ⟨rfl, rfl⟩

/-- Stream count and pool length of the pcg factory survive any sequence of `reseed()` calls. -/
theorem pcg_reseed_many_shape (es : List Entropy) :
    ∀ f : batch_pcg_factory, (f.reseed_many es).n_rngs = f.n_rngs ∧
      (f.reseed_many es).seeds.length = f.seeds.length := by
  induction es with
  | nil =>
    intro f
    exact ⟨rfl, rfl⟩
  | cons e es ih =>
    intro f
    have h := ih (f.reseed e).1
    simp only [batch_pcg_factory.reseed_many, List.foldl_cons] at h ⊢
    rw [h.1, h.2, pcg_reseed_n_rngs, pcg_reseed_length]
    exact ⟨rfl, rfl⟩

/-- Shape of a freshly constructed tau factory when the pool size fits `std::size_t`. -/
theorem tau_construct_shape (n : Nat) (h : 3 * n < 2 ^ 64) :
    (batch_tau_factory.construct n).n_rngs = n ∧
      (batch_tau_factory.construct n).seeds = List.replicate (n * 3) 0 := by
  have hm : (3 * n) % 2 ^ 64 = n * 3 := by omega
  simp only [batch_tau_factory.construct, batch_tau_factory.seeds_per_rng, hm, and_self]

/-- Shape of a freshly constructed pcg factory when the pool size fits `std::size_t`. -/
theorem pcg_construct_shape (n : Nat) (h : 2 * n < 2 ^ 64) :
    (batch_pcg_factory.construct n).n_rngs = n ∧
      (batch_pcg_factory.construct n).seeds = List.replicate (n * 2) 0 := by
  have hm : (2 * n) % 2 ^ 64 = n * 2 := by omega
  simp only [batch_pcg_factory.construct, batch_pcg_factory.seeds_per_rng, hm, and_self]

/-- The tau factory built for `6148914691236517206` streams, after one `reseed()` from the
counting source: its pool has two words. -/
theorem tau_wrapped_reseeded :
    (batch_tau_factory.construct 6148914691236517206).reseed_many [counting_entropy]
      = { n_rngs := 6148914691236517206, seeds := [1, 2] } := by
  have hs := tau_reseed_seeds (batch_tau_factory.construct 6148914691236517206) counting_entropy
  have hn := tau_reseed_n_rngs (batch_tau_factory.construct 6148914691236517206) counting_entropy
  have hl : (batch_tau_factory.construct 6148914691236517206).seeds.length = 2 := by decide
  rw [hl] at hs
  have hs2 : ((batch_tau_factory.construct 6148914691236517206).reseed counting_entropy).1.seeds
      = [1, 2] := by
    rw [hs]
    simp [counting_entropy, List.range_succ]
  simp only [batch_tau_factory.reseed_many, List.foldl_cons, List.foldl_nil]
  cases hf : ((batch_tau_factory.construct 6148914691236517206).reseed counting_entropy).1 with
  | mk n sd =>
    rw [hf] at hs2 hn
    simp only at hs2 hn
    rw [hs2, hn]
    rfl

/-! ## The claims -/

/-- C2. `reseed()` on a batch factory with a pool of length `L` consumes exactly `L` draws and
leaves `pool[k]` equal to the `k`-th word drawn, for every `k < L`, in the tau factory (64-bit
words) and in the pcg factory (32-bit words); a drawn value that already is a word is stored as
it is.  With two tau streams and the draws `1, 2, 3, 4, 5, 6`, `create(0)` is seeded `(1, 2, 3)`
and `create(1)` is seeded `(4, 5, 6)`. -/
theorem reseed_fills_pool_in_draw_order (ft : batch_tau_factory) (fp : batch_pcg_factory)
    (e : Entropy) :
    ((ft.reseed e).2 = { e with pos := e.pos + ft.seeds.length } ∧
      (ft.reseed e).1.seeds.length = ft.seeds.length ∧
      (∀ k, k < ft.seeds.length →
        (ft.reseed e).1.seeds[k]? = some (e.u64 (e.pos + k) % 2 ^ 64)) ∧
      (∀ k, k < ft.seeds.length → e.u64 (e.pos + k) < 2 ^ 64 →
        (ft.reseed e).1.seeds[k]? = some (e.u64 (e.pos + k)))) ∧
    ((fp.reseed e).2 = { e with pos := e.pos + fp.seeds.length } ∧
      (fp.reseed e).1.seeds.length = fp.seeds.length ∧
      (∀ k, k < fp.seeds.length →
        (fp.reseed e).1.seeds[k]? = some (e.u32 (e.pos + k) % 2 ^ 32)) ∧
      (∀ k, k < fp.seeds.length → e.u32 (e.pos + k) < 2 ^ 32 →
        (fp.reseed e).1.seeds[k]? = some (e.u32 (e.pos + k)))) ∧
    (((batch_tau_factory.construct 2).reseed counting_entropy).2.pos = 6 ∧
      (∀ e1, batch_tau_factory.create seed_triple
          ((batch_tau_factory.construct 2).reseed counting_entropy).1 0 e1
        = some ((1, 2, 3), { n_rngs := 2, seeds := [1, 2, 3, 4, 5, 6] }, e1)) ∧
      (∀ e1, batch_tau_factory.create seed_triple
          ((batch_tau_factory.construct 2).reseed counting_entropy).1 1 e1
        = some ((4, 5, 6), { n_rngs := 2, seeds := [1, 2, 3, 4, 5, 6] }, e1))) := by
  have ht : ∀ k, k < ft.seeds.length →
      (ft.reseed e).1.seeds[k]? = some (e.u64 (e.pos + k) % 2 ^ 64) := by
    intro k hk
    rw [tau_reseed_seeds]
    simp [hk]
  have hp : ∀ k, k < fp.seeds.length →
      (fp.reseed e).1.seeds[k]? = some (e.u32 (e.pos + k) % 2 ^ 32) := by
    intro k hk
    rw [pcg_reseed_seeds]
    simp [hk]
  refine ⟨⟨tau_reseed_entropy ft e, tau_reseed_length ft e, ht, ?_⟩,
    ⟨pcg_reseed_entropy fp e, pcg_reseed_length fp e, hp, ?_⟩, ?_, ?_, ?_⟩
  · intro k hk hw
    rw [ht k hk, Nat.mod_eq_of_lt hw]
  · intro k hk hw
    rw [hp k hk, Nat.mod_eq_of_lt hw]
  · rw [tau_reseed_entropy]
    rfl
  · intro e1
    rw [tau_two_streams_reseeded]
    rfl
  · intro e1
    rw [tau_two_streams_reseeded]
    rfl

/-- C3. Seed combiner on two words: for 32-bit `a` and `b`, `convert_seed([a, b], 2)` is the
64-bit value `b * 2 ^ 32 + a`; its low half is `a` and its high half is `b`. -/
theorem convert_seed_two_words (a b : Nat) (ha : a < 2 ^ 32) (hb : b < 2 ^ 32) :
    ∃ s, convert_seed [a, b] 2 = some s ∧ s = b * 2 ^ 32 + a ∧ s < 2 ^ 64 ∧
      s % 2 ^ 32 = a ∧ s / 2 ^ 32 = b := by
  refine ⟨b * 2 ^ 32 + a, ?_, rfl, by omega, by omega, by omega⟩
  simp only [convert_seed, ge_iff_le, Nat.le_refl, if_true]
  simp only [List.getElem?_cons_succ, List.getElem?_cons_zero]
  rw [shift_or_eq a b ha hb]

/-- Witness of C3: low word `0xDEADBEEF`, high word `7`. -/
theorem convert_seed_two_words_witness :
    ∃ s, convert_seed [3735928559, 7] 2 = some s ∧ s = 7 * 2 ^ 32 + 3735928559 ∧ s < 2 ^ 64 ∧
      s % 2 ^ 32 = 3735928559 ∧ s / 2 ^ 32 = 7 :=
  convert_seed_two_words 3735928559 7 (by decide) (by decide)

/-- C4. Seed combiner on short inputs: with length 0 the result is 0 whatever the array holds,
and with length 1 it is the first word `a`, zero-extended: the value `a` with an empty high
half. -/
theorem convert_seed_short (seeds : List Nat) (a : Nat) (ha : a < 2 ^ 32) :
    convert_seed seeds 0 = some 0 ∧ convert_seed [] 0 = some 0 ∧
      convert_seed [a] 1 = some a ∧ convert_seed (a :: seeds) 1 = some a ∧
      a < 2 ^ 64 ∧ a / 2 ^ 32 = 0 := by
  refine ⟨?_, ?_, ?_, ?_, by omega, by omega⟩ <;> simp [convert_seed]

/-- Witness of C4: the word `0xFFFFFFFF` in front of an array of two more words. -/
theorem convert_seed_short_witness :
    convert_seed [5, 6] 0 = some 0 ∧ convert_seed [] 0 = some 0 ∧
      convert_seed [4294967295] 1 = some 4294967295 ∧
      convert_seed (4294967295 :: [5, 6]) 1 = some 4294967295 ∧
      4294967295 < 2 ^ 64 ∧ 4294967295 / 2 ^ 32 = 0 :=
  convert_seed_short [5, 6] 4294967295 (by decide)

/-- C6. `reseed()` is a full overwrite.  Two batch factories with the same stream count and
pool length end up equal after `reseed()` whenever the words drawn during the call agree,
whatever their pools held before.  After two `reseed()` calls in sequence every pool word is a
word of the second call, and two runs that share only the second call's draws end in the same
factory, hence in the same `create(i)` results. -/
theorem reseed_is_full_overwrite (f g : batch_tau_factory) (p q : batch_pcg_factory)
    (e e1 : Entropy) (hfn : f.n_rngs = g.n_rngs) (hfl : f.seeds.length = g.seeds.length)
    (hpn : p.n_rngs = q.n_rngs) (hpl : p.seeds.length = q.seeds.length) :
    (((∀ k, k < f.seeds.length → e.u64 (e.pos + k) % 2 ^ 64 = e1.u64 (e1.pos + k) % 2 ^ 64) →
        (f.reseed e).1 = (g.reseed e1).1) ∧
      (∀ k, k < f.seeds.length →
        ((f.reseed e).1.reseed (f.reseed e).2).1.seeds[k]?
          = some (e.u64 (e.pos + f.seeds.length + k) % 2 ^ 64)) ∧
      ((∀ k, k < f.seeds.length → e.u64 (e.pos + f.seeds.length + k) % 2 ^ 64
          = e1.u64 (e1.pos + f.seeds.length + k) % 2 ^ 64) →
        ((f.reseed e).1.reseed (f.reseed e).2).1 = ((g.reseed e1).1.reseed (g.reseed e1).2).1 ∧
        ∀ (G : Type) (mk : Nat → Nat → Nat → G) (i : Nat) (e2 : Entropy),
          batch_tau_factory.create mk ((f.reseed e).1.reseed (f.reseed e).2).1 i e2
            = batch_tau_factory.create mk ((g.reseed e1).1.reseed (g.reseed e1).2).1 i e2)) ∧
    (((∀ k, k < p.seeds.length → e.u32 (e.pos + k) % 2 ^ 32 = e1.u32 (e1.pos + k) % 2 ^ 32) →
        (p.reseed e).1 = (q.reseed e1).1) ∧
      (∀ k, k < p.seeds.length →
        ((p.reseed e).1.reseed (p.reseed e).2).1.seeds[k]?
          = some (e.u32 (e.pos + p.seeds.length + k) % 2 ^ 32)) ∧
      ((∀ k, k < p.seeds.length → e.u32 (e.pos + p.seeds.length + k) % 2 ^ 32
          = e1.u32 (e1.pos + p.seeds.length + k) % 2 ^ 32) →
        ((p.reseed e).1.reseed (p.reseed e).2).1 = ((q.reseed e1).1.reseed (q.reseed e1).2).1 ∧
        ∀ (σ : Type) (E : Engine σ) (i : Nat) (e2 : Entropy),
          batch_pcg_factory.create E ((p.reseed e).1.reseed (p.reseed e).2).1 i e2
            = batch_pcg_factory.create E ((q.reseed e1).1.reseed (q.reseed e1).2).1 i e2)) := by
  have tl := tau_reseed_length f e
  have tl1 := tau_reseed_length g e1
  have pl := pcg_reseed_length p e
  have pl1 := pcg_reseed_length q e1
  have twice_t : (∀ k, k < f.seeds.length → e.u64 (e.pos + f.seeds.length + k) % 2 ^ 64
        = e1.u64 (e1.pos + f.seeds.length + k) % 2 ^ 64) →
      ((f.reseed e).1.reseed (f.reseed e).2).1 = ((g.reseed e1).1.reseed (g.reseed e1).2).1 := by
    intro hw
    apply tau_reseed_congr
    · rw [tau_reseed_n_rngs, tau_reseed_n_rngs, hfn]
    · rw [tl, tl1, hfl]
    · intro k hk
      rw [tl] at hk
      rw [tau_reseed_entropy, tau_reseed_entropy, ← hfl]
      exact hw k hk
  have twice_p : (∀ k, k < p.seeds.length → e.u32 (e.pos + p.seeds.length + k) % 2 ^ 32
        = e1.u32 (e1.pos + p.seeds.length + k) % 2 ^ 32) →
      ((p.reseed e).1.reseed (p.reseed e).2).1 = ((q.reseed e1).1.reseed (q.reseed e1).2).1 := by
    intro hw
    apply pcg_reseed_congr
    · rw [pcg_reseed_n_rngs, pcg_reseed_n_rngs, hpn]
    · rw [pl, pl1, hpl]
    · intro k hk
      rw [pl] at hk
      rw [pcg_reseed_entropy, pcg_reseed_entropy, ← hpl]
      exact hw k hk
  refine ⟨⟨tau_reseed_congr f g e e1 hfn hfl, ?_, ?_⟩, ⟨pcg_reseed_congr p q e e1 hpn hpl, ?_, ?_⟩⟩
  · intro k hk
    rw [tau_reseed_seeds, tl, tau_reseed_entropy]
    simp [hk]
  · intro hw
    refine ⟨twice_t hw, ?_⟩
    intro G mk i e2
    rw [twice_t hw]
  · intro k hk
    rw [pcg_reseed_seeds, pl, pcg_reseed_entropy]
    simp [hk]
  · intro hw
    refine ⟨twice_p hw, ?_⟩
    intro σ E i e2
    rw [twice_p hw]

/-- Witness of C6: a fresh and a used factory, reseeded twice from two sources that differ in
the first six draws and agree afterwards, end in the same factory. -/
theorem reseed_is_full_overwrite_witness :
    (((batch_tau_factory.construct 2).reseed counting_entropy).1.reseed
        ((batch_tau_factory.construct 2).reseed counting_entropy).2).1
      = ((used_tau_factory.reseed skewed_entropy).1.reseed
        (used_tau_factory.reseed skewed_entropy).2).1 ∧
    (((batch_pcg_factory.construct 3).reseed counting_entropy).1.reseed
        ((batch_pcg_factory.construct 3).reseed counting_entropy).2).1
      = ((used_pcg_factory.reseed skewed_entropy).1.reseed
        (used_pcg_factory.reseed skewed_entropy).2).1 :=
  have h := reseed_is_full_overwrite (batch_tau_factory.construct 2) used_tau_factory
    (batch_pcg_factory.construct 3) used_pcg_factory counting_entropy skewed_entropy
    (by decide) (by decide) (by decide) (by decide)
  ⟨(h.1.2.2 (by decide)).1, (h.2.2.2 (by decide)).1⟩

/-- C7. `create(index)` on either batch factory is a pure read.  Whenever the call returns, the
factory (pool and stream count) and the entropy source come back unchanged, the generator does
not depend on the entropy source, and a second call on the state the first one left builds the
generator from the same seed words; on a factory that keeps its words per stream the call
returns for every in-range index. -/
theorem create_is_pure_read (G : Type) (mk : Nat → Nat → Nat → G) (σ : Type) (E : Engine σ)
    (ft : batch_tau_factory) (fp : batch_pcg_factory) (i : Nat) (e : Entropy) :
    ((∀ r, batch_tau_factory.create mk ft i e = some r →
        r.2.1 = ft ∧ r.2.1.seeds = ft.seeds ∧ r.2.1.n_rngs = ft.n_rngs ∧ r.2.2 = e ∧
        batch_tau_factory.create mk r.2.1 i r.2.2 = some r ∧
        ∀ e1, batch_tau_factory.create mk ft i e1 = some (r.1, ft, e1)) ∧
      (ft.seeds.length = batch_tau_factory.seeds_per_rng * ft.n_rngs → ft.seeds.length < 2 ^ 64 →
        i < ft.n_rngs → ∃ t, batch_tau_factory.create mk ft i e = some (t, ft, e))) ∧
    ((∀ r, batch_pcg_factory.create E fp i e = some r →
        r.2.1 = fp ∧ r.2.1.seeds = fp.seeds ∧ r.2.1.n_rngs = fp.n_rngs ∧ r.2.2 = e ∧
        batch_pcg_factory.create E r.2.1 i r.2.2 = some r ∧
        ∀ e1, batch_pcg_factory.create E fp i e1 = some (r.1, fp, e1)) ∧
      (fp.seeds.length = batch_pcg_factory.seeds_per_rng * fp.n_rngs → fp.seeds.length < 2 ^ 64 →
        i < fp.n_rngs → ∃ t, batch_pcg_factory.create E fp i e = some (t, fp, e))) := by
  refine ⟨⟨?_, ?_⟩, ⟨?_, ?_⟩⟩
  · intro r hr
    have key : ∀ e1, batch_tau_factory.create mk ft i e1 = some (r.1, ft, e1) ∧
        (r.2.1 = ft ∧ r.2.2 = e) := by
      intro e1
      simp only [batch_tau_factory.create] at hr ⊢
      cases h0 : ft.seeds[i * batch_tau_factory.seeds_per_rng % 2 ^ 64]? with
      | none => rw [h0] at hr; cases hr
      | some s0 =>
        cases h1 : ft.seeds[(i * batch_tau_factory.seeds_per_rng % 2 ^ 64 + 1) % 2 ^ 64]? with
        | none => rw [h0, h1] at hr; cases hr
        | some s1 =>
          cases h2 : ft.seeds[(i * batch_tau_factory.seeds_per_rng % 2 ^ 64 + 2) % 2 ^ 64]? with
          | none => rw [h0, h1, h2] at hr; cases hr
          | some s2 =>
            rw [h0, h1, h2] at hr
            simp only [Option.some.injEq] at hr
            subst hr
            exact ⟨rfl, rfl, rfl⟩
    obtain ⟨hf, he⟩ := (key e).2
    refine ⟨hf, by rw [hf], by rw [hf], he, ?_, fun e1 => (key e1).1⟩
    rw [hf, he]
    exact hr
  · intro hlen hsize hi
    obtain ⟨a, b, c, _, _, _, hcr⟩ := tau_create_of_pool G mk ft i e hlen hsize hi
    exact ⟨_, hcr⟩
  · intro r hr
    have key : ∀ e1, batch_pcg_factory.create E fp i e1 = some (r.1, fp, e1) ∧
        (r.2.1 = fp ∧ r.2.2 = e) := by
      intro e1
      simp only [batch_pcg_factory.create] at hr ⊢
      cases h0 : fp.seeds[i * batch_pcg_factory.seeds_per_rng % 2 ^ 64]? with
      | none => rw [h0] at hr; cases hr
      | some s0 =>
        cases h1 : fp.seeds[(i * batch_pcg_factory.seeds_per_rng % 2 ^ 64 + 1) % 2 ^ 64]? with
        | none => rw [h0, h1] at hr; cases hr
        | some s1 =>
          rw [h0, h1] at hr
          simp only at hr ⊢
          cases h2 : convert_seed [s0, s1] 2 with
          | none => rw [h2] at hr; cases hr
          | some s =>
            rw [h2] at hr
            simp only [Option.some.injEq] at hr
            subst hr
            exact ⟨rfl, rfl, rfl⟩
    obtain ⟨hf, he⟩ := (key e).2
    refine ⟨hf, by rw [hf], by rw [hf], he, ?_, fun e1 => (key e1).1⟩
    rw [hf, he]
    exact hr
  · intro hlen hsize hi
    obtain ⟨a, b, s, _, _, _, hcr⟩ := pcg_create_of_pool σ E fp i e hlen hsize hi
    exact ⟨_, hcr⟩

/-- Witness of C7: stream 1 of the used tau factory and stream 2 of the used pcg factory are
created without touching factory or entropy source. -/
theorem create_is_pure_read_witness :
    (∃ t, batch_tau_factory.create seed_triple used_tau_factory 1 counting_entropy
        = some (t, used_tau_factory, counting_entropy)) ∧
    (∃ t, batch_pcg_factory.create echo_engine used_pcg_factory 2 counting_entropy
        = some (t, used_pcg_factory, counting_entropy)) :=
  have h := create_is_pure_read (Nat × Nat × Nat) seed_triple (Nat × Nat) echo_engine
    used_tau_factory used_pcg_factory 1 counting_entropy
  have h2 := create_is_pure_read (Nat × Nat × Nat) seed_triple (Nat × Nat) echo_engine
    used_tau_factory used_pcg_factory 2 counting_entropy
  ⟨h.1.2 (by decide) (by decide) (by decide), h2.2.2 (by decide) (by decide) (by decide)⟩

/-- C9. pcg generator draw: for every upper bound `n ≥ 1` and every generator state,
`draw(n, ctx_a, ctx_b)` returns the engine's next raw 32-bit output modulo `n`, a value `r` with
`0 ≤ r < n`, and the generator holds the advanced engine. -/
theorem pcg_draw_is_raw_mod (σ : Type) (E : Engine σ) (g : pcg_prng σ) (n ctx_a ctx_b : Nat)
    (hn : 1 ≤ n) :
    ∃ r, pcg_prng.draw E g n ctx_a ctx_b = some (r, { gen := (E.next g.gen).2 }) ∧
      r = ((E.next g.gen).1 % 2 ^ 32) % n ∧
      ((E.next g.gen).1 < 2 ^ 32 → r = (E.next g.gen).1 % n) ∧
      0 ≤ r ∧ r < n := by
  have hne : n ≠ 0 := by omega
  refine ⟨((E.next g.gen).1 % 2 ^ 32) % n, ?_, rfl, ?_, Nat.zero_le _, Nat.mod_lt _ (by omega)⟩
  · simp [pcg_prng.draw, hne]
  · intro hraw
    rw [Nat.mod_eq_of_lt hraw]

/-- Witness of C9: the echo engine seeded with `12`, upper bound `5`. -/
theorem pcg_draw_is_raw_mod_witness :
    ∃ r, pcg_prng.draw echo_engine (pcg_prng.construct echo_engine 12) 5 3 4
        = some (r, { gen := (echo_engine.next (pcg_prng.construct echo_engine 12).gen).2 }) ∧
      r = ((echo_engine.next (pcg_prng.construct echo_engine 12).gen).1 % 2 ^ 32) % 5 ∧
      ((echo_engine.next (pcg_prng.construct echo_engine 12).gen).1 < 2 ^ 32 →
        r = (echo_engine.next (pcg_prng.construct echo_engine 12).gen).1 % 5) ∧
      0 ≤ r ∧ r < 5 :=
  pcg_draw_is_raw_mod (Nat × Nat) echo_engine (pcg_prng.construct echo_engine 12) 5 3 4
    (by decide)

/-- C10. The context parameters of the pcg draw are inert: for every generator state, every
`n ≥ 1` and all context words, two draws that differ only in the context words return the same
value and leave the generator in the same state. -/
theorem pcg_draw_context_inert (σ : Type) (E : Engine σ) (g : pcg_prng σ)
    (n ctx_a ctx_b ctx_a2 ctx_b2 : Nat) (hn : 1 ≤ n) :
    ∃ r g1, pcg_prng.draw E g n ctx_a ctx_b = some (r, g1) ∧
      pcg_prng.draw E g n ctx_a2 ctx_b2 = some (r, g1) := by
  have hne : n ≠ 0 := by omega
  refine ⟨((E.next g.gen).1 % 2 ^ 32) % n, { gen := (E.next g.gen).2 }, ?_, ?_⟩ <;>
    simp [pcg_prng.draw, hne]

/-- Witness of C10: the echo engine seeded with `12`, upper bound `5`, contexts `(3, 4)` and
`(8, 9)`. -/
theorem pcg_draw_context_inert_witness :
    ∃ r g1, pcg_prng.draw echo_engine (pcg_prng.construct echo_engine 12) 5 3 4 = some (r, g1) ∧
      pcg_prng.draw echo_engine (pcg_prng.construct echo_engine 12) 5 8 9 = some (r, g1) :=
  pcg_draw_context_inert (Nat × Nat) echo_engine (pcg_prng.construct echo_engine 12) 5 3 4 8 9
    (by decide)

/-- Counterexample to C11 as stated: for `n_rngs = 6148914691236517206` the product
`seeds_per_rng * n_rngs` wraps in `std::size_t` and the tau pool has 2 words, not `3 * n_rngs`;
for `n_rngs = 2 ^ 63` the pcg pool is empty. -/
theorem construct_pool_size_wraps :
    (batch_tau_factory.construct 6148914691236517206).n_rngs = 6148914691236517206 ∧
    (batch_tau_factory.construct 6148914691236517206).seeds.length = 2 ∧
    (batch_tau_factory.construct 6148914691236517206).seeds.length
      ≠ 6148914691236517206 * batch_tau_factory.seeds_per_rng ∧
    (batch_pcg_factory.construct 9223372036854775808).seeds.length = 0 ∧
    (batch_pcg_factory.construct 9223372036854775808).seeds.length
      ≠ 9223372036854775808 * batch_pcg_factory.seeds_per_rng := by
  decide

/-- C11, amended. Batch factory construction: `construct(n_streams)` yields a factory whose
stream count is `n_streams`, and, whenever `n_streams * words_per_stream` fits `std::size_t`
(is below `2 ^ 64`), whose pool has length `n_streams * words_per_stream` (3 for tau, 2 for pcg)
with every word equal to 0; the default constructor is the case `n_streams = 1`. -/
theorem construct_zero_pool (n : Nat) :
    ((batch_tau_factory.construct n).n_rngs = n ∧
      (n * batch_tau_factory.seeds_per_rng < 2 ^ 64 →
        (batch_tau_factory.construct n).seeds.length = n * batch_tau_factory.seeds_per_rng ∧
        ∀ w, w ∈ (batch_tau_factory.construct n).seeds → w = 0) ∧
      batch_tau_factory.construct_default = batch_tau_factory.construct 1) ∧
    ((batch_pcg_factory.construct n).n_rngs = n ∧
      (n * batch_pcg_factory.seeds_per_rng < 2 ^ 64 →
        (batch_pcg_factory.construct n).seeds.length = n * batch_pcg_factory.seeds_per_rng ∧
        ∀ w, w ∈ (batch_pcg_factory.construct n).seeds → w = 0) ∧
      batch_pcg_factory.construct_default = batch_pcg_factory.construct 1) := by
  refine ⟨⟨rfl, ?_, rfl⟩, ⟨rfl, ?_, rfl⟩⟩
  · intro h
    simp only [batch_tau_factory.seeds_per_rng] at h ⊢
    rw [(tau_construct_shape n (by omega)).2]
    refine ⟨List.length_replicate _ _, ?_⟩
    intro w hw
    exact List.eq_of_mem_replicate hw
  · intro h
    simp only [batch_pcg_factory.seeds_per_rng] at h ⊢
    rw [(pcg_construct_shape n (by omega)).2]
    refine ⟨List.length_replicate _ _, ?_⟩
    intro w hw
    exact List.eq_of_mem_replicate hw

/-- Witness of C11: four streams. -/
theorem construct_zero_pool_witness :
    ((batch_tau_factory.construct 4).seeds.length = 4 * batch_tau_factory.seeds_per_rng ∧
      ∀ w, w ∈ (batch_tau_factory.construct 4).seeds → w = 0) ∧
    ((batch_pcg_factory.construct 4).seeds.length = 4 * batch_pcg_factory.seeds_per_rng ∧
      ∀ w, w ∈ (batch_pcg_factory.construct 4).seeds → w = 0) :=
  ⟨(construct_zero_pool 4).1.2.1 (by decide), (construct_zero_pool 4).2.2.1 (by decide)⟩

/-- C12. Null factory: `create(s)` and `create(t)` build the same fixed generator for all seed
values `s` and `t`, and `reseed()` is a no-op: it consumes no entropy, leaves the factory
unchanged, and `create` gives the same generator before and after it. -/
theorem deterministic_factory_ignores_seed (G : Type) (ng : G) (f : deterministic_factory)
    (s t : Nat) (e : Entropy) :
    deterministic_factory.create ng f s e = deterministic_factory.create ng f t e ∧
    deterministic_factory.create ng f s e = (ng, f, e) ∧
    f.reseed e = (f, e) ∧ (f.reseed e).2.pos = e.pos ∧
    (deterministic_factory.create ng (f.reseed e).1 s (f.reseed e).2).1
      = (deterministic_factory.create ng f s e).1 ∧
    (deterministic_factory.create ng (f.reseed e).1 t (f.reseed e).2).1
      = (deterministic_factory.create ng f s e).1 :=
  ⟨rfl, rfl, rfl, rfl, rfl, rfl⟩

/-- C13. Legacy tau factory: construction, for any constructor argument, draws exactly two
64-bit words, the first becoming `seed1` and the second `seed2`; `reseed()` redraws both in the
same order; `create(seed)` builds the generator from `(seed1, seed2, seed)` and leaves `seed1`,
`seed2` and the entropy source alone, so that two different seed arguments give different third
seed words. -/
theorem tau_factory_seeding (G : Type) (mk : Nat → Nat → Nat → G) (n : Nat) (f : tau_factory)
    (e : Entropy) (s t : Nat) (hst : s ≠ t) :
    ((tau_factory.construct n e).1
        = { seed1 := e.u64 e.pos % 2 ^ 64, seed2 := e.u64 (e.pos + 1) % 2 ^ 64 } ∧
      (tau_factory.construct n e).2 = { e with pos := e.pos + 2 }) ∧
    ((f.reseed e).1
        = { seed1 := e.u64 e.pos % 2 ^ 64, seed2 := e.u64 (e.pos + 1) % 2 ^ 64 } ∧
      (f.reseed e).2 = { e with pos := e.pos + 2 }) ∧
    tau_factory.create mk f s e = (mk f.seed1 f.seed2 s, f, e) ∧
    tau_factory.create seed_triple f s e = ((f.seed1, f.seed2, s), f, e) ∧
    (tau_factory.create seed_triple f s e).1.2.2
      ≠ (tau_factory.create seed_triple f t e).1.2.2 :=
  ⟨⟨rfl, rfl⟩, ⟨rfl, rfl⟩, rfl, rfl, hst⟩

/-- Witness of C13: the counting source, seeds `3` and `4`. -/
theorem tau_factory_seeding_witness :
    (tau_factory.construct 8 counting_entropy).1 = { seed1 := 1, seed2 := 2 } ∧
    (tau_factory.create seed_triple (tau_factory.construct 8 counting_entropy).1 3
        counting_entropy).1.2.2
      ≠ (tau_factory.create seed_triple (tau_factory.construct 8 counting_entropy).1 4
        counting_entropy).1.2.2 :=
  have h := tau_factory_seeding (Nat × Nat × Nat) seed_triple 8
    (tau_factory.construct 8 counting_entropy).1 counting_entropy 3 4 (by decide)
  ⟨h.1.1, h.2.2.2.2⟩

/-- C15, the code at the failing input. In the legacy pcg factory the caller-supplied seed does
not reach the engine: `create(s)` and `create(t)` build the same generator for all `s` and `t`,
its engine seeded with the low 32 bits of `seed1`; with `seed1 = 7` the seeds `1` and `2`, which
differ in their low 32 bits, both give the engine seed `7`. -/
theorem pcg_factory_create_drops_seed (σ : Type) (E : Engine σ) (f : pcg_factory) (s t : Nat)
    (e : Entropy) :
    pcg_factory.create E f s e = pcg_factory.create E f t e ∧
    pcg_factory.create E f s e = some ({ gen := E.seed (f.seed1 % 2 ^ 32) }, f, e) ∧
    1 % 2 ^ 32 ≠ 2 % 2 ^ 32 ∧
    pcg_factory.create echo_engine { seed1 := 7 } 1 counting_entropy
      = some ({ gen := echo_engine.seed 7 }, { seed1 := 7 }, counting_entropy) ∧
    pcg_factory.create echo_engine { seed1 := 7 } 2 counting_entropy
      = some ({ gen := echo_engine.seed 7 }, { seed1 := 7 }, counting_entropy) := by
  refine ⟨?_, pcg_factory_create_eq σ E f s e, by decide, ?_, ?_⟩
  · rw [pcg_factory_create_eq, pcg_factory_create_eq]
  · rw [pcg_factory_create_eq]
    rfl
  · rw [pcg_factory_create_eq]
    rfl

/-- Counterexample to C16 as stated: the tau factory reached by `construct(6148914691236517206)`
and one `reseed()` has stream count `6148914691236517206` and a pool of 2 words, so the in-range
index 0 makes `create` read position 2 past the end of the pool. -/
theorem reachable_pool_too_short :
    0 < ((batch_tau_factory.construct 6148914691236517206).reseed_many [counting_entropy]).n_rngs ∧
    ((batch_tau_factory.construct 6148914691236517206).reseed_many [counting_entropy]).seeds.length
      = 2 ∧
    2 ∈ batch_tau_factory.create_reads 0 ∧
    batch_tau_factory.create seed_triple
      ((batch_tau_factory.construct 6148914691236517206).reseed_many [counting_entropy]) 0
      counting_entropy = none := by
  rw [tau_wrapped_reseeded]
  exact ⟨by decide, rfl, by decide, rfl⟩

/-- C16, amended. Pool-size invariant and in-bounds reads: when `n * words_per_stream` fits
`std::size_t` (is below `2 ^ 64`), every batch factory reached by `construct(n)` followed by any
number of `reseed()` calls has pool length `n * words_per_stream` and stream count `n`; hence,
for `index < n`, every pool position `create(index)` reads lies inside the pool and `create`
returns a generator. -/
theorem pool_size_invariant (n : Nat) (es : List Entropy) (index : Nat) (hi : index < n) :
    (n * batch_tau_factory.seeds_per_rng < 2 ^ 64 →
      ((batch_tau_factory.construct n).reseed_many es).seeds.length
        = n * batch_tau_factory.seeds_per_rng ∧
      ((batch_tau_factory.construct n).reseed_many es).n_rngs = n ∧
      (∀ p, p ∈ batch_tau_factory.create_reads index →
        p < ((batch_tau_factory.construct n).reseed_many es).seeds.length) ∧
      ∀ (G : Type) (mk : Nat → Nat → Nat → G) (e : Entropy),
        ∃ g, batch_tau_factory.create mk ((batch_tau_factory.construct n).reseed_many es) index e
          = some (g, (batch_tau_factory.construct n).reseed_many es, e)) ∧
    (n * batch_pcg_factory.seeds_per_rng < 2 ^ 64 →
      ((batch_pcg_factory.construct n).reseed_many es).seeds.length
        = n * batch_pcg_factory.seeds_per_rng ∧
      ((batch_pcg_factory.construct n).reseed_many es).n_rngs = n ∧
      (∀ p, p ∈ batch_pcg_factory.create_reads index →
        p < ((batch_pcg_factory.construct n).reseed_many es).seeds.length) ∧
      ∀ (σ : Type) (E : Engine σ) (e : Entropy),
        ∃ g, batch_pcg_factory.create E ((batch_pcg_factory.construct n).reseed_many es) index e
          = some (g, (batch_pcg_factory.construct n).reseed_many es, e)) := by
  constructor
  · intro h
    simp only [batch_tau_factory.seeds_per_rng] at h ⊢
    have hc := tau_construct_shape n (by omega)
    have hm := tau_reseed_many_shape es (batch_tau_factory.construct n)
    have hlen : ((batch_tau_factory.construct n).reseed_many es).seeds.length = n * 3 := by
      rw [hm.2, hc.2, List.length_replicate]
    have hnr : ((batch_tau_factory.construct n).reseed_many es).n_rngs = n := by
      rw [hm.1, hc.1]
    refine ⟨hlen, hnr, ?_, ?_⟩
    · intro p hp
      rw [tau_create_reads_eq index (by omega)] at hp
      simp only [List.mem_cons, List.mem_singleton, List.not_mem_nil, or_false] at hp
      omega
    · intro G mk e
      obtain ⟨a, b, c, _, _, _, hcr⟩ :=
        tau_create_of_pool G mk ((batch_tau_factory.construct n).reseed_many es) index e
          (by rw [hlen, hnr]; simp only [batch_tau_factory.seeds_per_rng]; omega)
          (by omega) (by omega)
      exact ⟨_, hcr⟩
  · intro h
    simp only [batch_pcg_factory.seeds_per_rng] at h ⊢
    have hc := pcg_construct_shape n (by omega)
    have hm := pcg_reseed_many_shape es (batch_pcg_factory.construct n)
    have hlen : ((batch_pcg_factory.construct n).reseed_many es).seeds.length = n * 2 := by
      rw [hm.2, hc.2, List.length_replicate]
    have hnr : ((batch_pcg_factory.construct n).reseed_many es).n_rngs = n := by
      rw [hm.1, hc.1]
    refine ⟨hlen, hnr, ?_, ?_⟩
    · intro p hp
      rw [pcg_create_reads_eq index (by omega)] at hp
      simp only [List.mem_cons, List.mem_singleton, List.not_mem_nil, or_false] at hp
      omega
    · intro σ E e
      obtain ⟨a, b, c, _, _, _, hcr⟩ :=
        pcg_create_of_pool σ E ((batch_pcg_factory.construct n).reseed_many es) index e
          (by rw [hlen, hnr]; simp only [batch_pcg_factory.seeds_per_rng]; omega)
          (by omega) (by omega)
      exact ⟨_, hcr⟩

/-- Witness of C16: two streams, two `reseed()` calls, index 1. -/
theorem pool_size_invariant_witness :
    (((batch_tau_factory.construct 2).reseed_many [counting_entropy, skewed_entropy]).seeds.length
        = 2 * batch_tau_factory.seeds_per_rng ∧
      ((batch_tau_factory.construct 2).reseed_many [counting_entropy, skewed_entropy]).n_rngs
        = 2) ∧
    (((batch_pcg_factory.construct 2).reseed_many [counting_entropy, skewed_entropy]).seeds.length
        = 2 * batch_pcg_factory.seeds_per_rng ∧
      ((batch_pcg_factory.construct 2).reseed_many [counting_entropy, skewed_entropy]).n_rngs
        = 2) :=
  have h := pool_size_invariant 2 [counting_entropy, skewed_entropy] 1 (by decide)
  have ht := h.1 (by decide)
  have hp := h.2 (by decide)
  ⟨⟨ht.1, ht.2.1⟩, ⟨hp.1, hp.2.1⟩⟩

/-- C17, the code at the failing input. With the next raw output `10` and `n = 5` the draw
returns `0`, which is not in `(0, n]`; and no draw ever returns the upper end `n`. -/
theorem pcg_draw_returns_zero :
    pcg_prng.draw echo_engine (pcg_prng.construct echo_engine 10) 5 0 0
      = some (0, { gen := (10, 1) }) ∧
    ¬ (0 < 0 ∧ 0 ≤ 5) ∧
    ∀ (σ : Type) (E : Engine σ) (g : pcg_prng σ) (n a b r : Nat) (g1 : pcg_prng σ),
      pcg_prng.draw E g n a b = some (r, g1) → r < n := by
  refine ⟨rfl, by decide, ?_⟩
  intro σ E g n a b r g1 h
  simp only [pcg_prng.draw] at h
  by_cases hn : n = 0
  · simp [hn] at h
  · simp only [hn, if_false, Option.some.injEq, Prod.mk.injEq] at h
    rw [← h.1]
    exact Nat.mod_lt _ (by omega)

/-- C19. `convert_seed` with more than two words ignores every word after the first two: for a
word sequence of length `n ≥ 2`, `convert_seed(words, n)` equals `convert_seed` of its first two
words with length 2. -/
theorem convert_seed_ignores_tail (words : List Nat) (n : Nat) (hn : 2 ≤ n)
    (hl : words.length = n) :
    convert_seed words n = convert_seed (words.take 2) 2 ∧
    ∃ a b rest, words = a :: b :: rest ∧ List.take 2 words = [a, b] ∧
      convert_seed words n = convert_seed [a, b] 2 ∧
      convert_seed words n = some (((b <<< 32) % 2 ^ 64) ||| a) := by
  match words, hl with
  | [], hl => simp at hl; omega
  | [_], hl => simp at hl; omega
  | a :: b :: rest, _ =>
    have h1 : convert_seed (a :: b :: rest) n = some (((b <<< 32) % 2 ^ 64) ||| a) := by
      simp [convert_seed, hn]
    refine ⟨?_, a, b, rest, rfl, rfl, ?_, h1⟩
    · rw [h1]
      simp [convert_seed]
    · rw [h1, convert_seed_pair]

/-- Witness of C19: five words. -/
theorem convert_seed_ignores_tail_witness :
    convert_seed [1, 2, 3, 4, 5] 5 = convert_seed ([1, 2, 3, 4, 5].take 2) 2 ∧
    ∃ a b rest, [1, 2, 3, 4, 5] = a :: b :: rest ∧ List.take 2 [1, 2, 3, 4, 5] = [a, b] ∧
      convert_seed [1, 2, 3, 4, 5] 5 = convert_seed [a, b] 2 ∧
      convert_seed [1, 2, 3, 4, 5] 5 = some (((b <<< 32) % 2 ^ 64) ||| a) :=
  convert_seed_ignores_tail [1, 2, 3, 4, 5] 5 (by decide) (by decide)

end uwot
